import Mathlib

/-!
Verification of the per-sample audio pipeline of
`pico_hearing_aid_digital.py` (digital hearing aid: frame codec,
envelope-following compressor, gain staging, saturation, chunked
real-time loop).

Python floats are modelled as exact rationals (`ℚ`), Python ints as `ℤ`
or `ℕ`.  Python's arithmetic right shift on signed integers is floor
division (`Int.fdiv`), and `int()` applied to a float truncates toward
zero (`pyInt` below).
-/

namespace HearingAid

/-- Python `int(x)` on a real value: truncation toward zero. -/
def pyInt (q : ℚ) : ℤ := if q < 0 then ⌈q⌉ else ⌊q⌋

/-! ## Configuration constants (lines 29-48 of the source) -/

def SAMPLE_RATE : ℚ := 16000

def COMPRESS_THRESHOLD : ℚ := 500000

/-- Source constant `COMPRESS_RATIO = 3.0` (line 40). -/
def compress_ratio : ℚ := 3

def MIN_TIME_MS : ℚ := 5
def MAX_TIME_MS : ℚ := 200

def MIN_GAIN : ℚ := 0.5
def MAX_GAIN : ℚ := 8.0

/-! ## Compressor state initial values (lines 86-92) -/

def envelope_left : ℚ := 0.0
def envelope_right : ℚ := 0.0

def current_gain : ℚ := 1.0
def attack_coeff : ℚ := 0.1
def release_coeff : ℚ := 0.01

/-! ## The control reader `read_pots` (lines 94-118)

The source reads two raw 16-bit ADC values and updates the globals
`current_gain`, `attack_coeff`, `release_coeff`.  We model it as a pure
function of the raw readings and the previous coefficient values
(required because the `if samples_per_time > 0` guard leaves the old
coefficients in place when it fails).  Result: `(gain, attack, release)`. -/

def read_pots (oldAttack oldRelease : ℚ) (gain_raw compress_raw : ℕ) :
    ℚ × ℚ × ℚ :=
  let gain_normalized : ℚ := (gain_raw : ℚ) / 65535
  let new_gain : ℚ := MIN_GAIN + gain_normalized * (MAX_GAIN - MIN_GAIN)
  let compress_normalized : ℚ := (compress_raw : ℚ) / 65535
  let time_ms : ℚ := MIN_TIME_MS + compress_normalized * (MAX_TIME_MS - MIN_TIME_MS)
  let samples_per_time : ℚ := time_ms / 1000 * SAMPLE_RATE
  let aC : ℚ := if samples_per_time > 0 then 1 / samples_per_time else oldAttack
  let rC : ℚ := if samples_per_time > 0 then 1 / samples_per_time else oldRelease
  (new_gain, aC, rC)

/-! ## `compress_sample` (lines 120-158)

Decomposed into the envelope update (lines 127-133), the gain-reduction
factor (lines 135-143) and the gain application plus saturation
(lines 145-158); `compress_sample` chains them exactly as the source
does.  The global coefficients and compression policy constants become
explicit parameters. -/

/-- Envelope update, lines 127-133: one-pole follower, attack branch when
the instantaneous magnitude exceeds the envelope, release branch
otherwise. -/
def env_update (aC rC envelope : ℚ) (abs_sample : ℤ) : ℚ :=
  if (abs_sample : ℚ) > envelope then
    envelope + aC * ((abs_sample : ℚ) - envelope)
  else
    envelope + rC * ((abs_sample : ℚ) - envelope)

/-- Gain-reduction factor, lines 135-143: above threshold,
`threshold * (1 + (envelope/threshold - 1)/ratio) / envelope`; else `1`. -/
def comp_gain (threshold ratio envelope : ℚ) : ℚ :=
  if envelope > threshold then
    threshold * (1 + (envelope / threshold - 1) / ratio) / envelope
  else
    1

/-- `compress_sample(sample, envelope, gain)` with the globals
(`attack_coeff`, `release_coeff`, `COMPRESS_THRESHOLD`, `COMPRESS_RATIO`)
made explicit.  Returns `(output, new_envelope)`. -/
def compress_sample (aC rC threshold ratio : ℚ) (sample : ℤ)
    (envelope gain : ℚ) : ℤ × ℚ :=
  let abs_sample : ℤ := |sample|
  let env' : ℚ := env_update aC rC envelope abs_sample
  let cg : ℚ := comp_gain threshold ratio env'
  let total_gain : ℚ := gain * cg
  let output : ℤ := pyInt ((sample : ℚ) * total_gain)
  let max_val : ℤ := 0x7FFFFF
  let output' : ℤ :=
    if output > max_val then max_val
    else if output < -max_val then -max_val
    else output
  (output', env')

/-! ## Sample codec (main loop, lines 188-229)

Decode: assemble a 32-bit little-endian word from four buffer bytes
(lines 191-195), convert to signed two's complement (lines 198-201),
arithmetic-shift right by 8 to get the 24-bit sample (lines 204-205).
Encode: shift left by 8 (lines 212-213), wrap negatives into the
unsigned 32-bit layout (lines 216-219), split into four bytes
(lines 222-229). -/

/-- Lines 191-195: `b0 | (b1 << 8) | (b2 << 16) | (b3 << 24)`. -/
def word32 (b0 b1 b2 b3 : ℕ) : ℕ :=
  b0 ||| (b1 <<< 8) ||| (b2 <<< 16) ||| (b3 <<< 24)

/-- Lines 198-201: reinterpret an unsigned 32-bit container as signed
two's complement. -/
def toSigned32 (w : ℕ) : ℤ :=
  if 0x80000000 ≤ w then (w : ℤ) - 0x100000000 else (w : ℤ)

/-- Lines 204-205: `left >> 8` on the signed value — Python's `>>` on a
negative int is an arithmetic (floor) shift, i.e. floor division by 256. -/
def sample24 (w : ℕ) : ℤ := Int.fdiv (toSigned32 w) 256

/-- Lines 212-219: `out << 8`, then `+ 0x100000000` when negative. -/
def encodeWord (x : ℤ) : ℕ :=
  (let y : ℤ := x * 256
   if y < 0 then y + 0x100000000 else y).toNat

/-- Lines 222-229: little-endian byte split of the 32-bit container. -/
def bytes32 (w : ℕ) : List ℕ :=
  [w &&& 0xFF, (w >>> 8) &&& 0xFF, (w >>> 16) &&& 0xFF, (w >>> 24) &&& 0xFF]

/-! ## The per-chunk processing loop (lines 184-232)

Line 185: `num_frames = num_read // 8`.  The `for` loop then processes
frames `0 .. num_frames - 1` in place; bytes past `8 * num_frames` are
never touched, and line 232 writes back `audio_buffer[:num_read]`, i.e.
exactly the `num_read` bytes that were read.  `process_chunk` is the
loop body as a function of the chunk's bytes: it transforms each
complete 8-byte stereo frame exactly as lines 188-229 do, leaves the
trailing partial frame unchanged, and additionally returns the final
envelopes and the number of frames it processed. -/

def num_frames (num_read : ℕ) : ℕ := num_read / 8

def process_chunk (aC rC threshold ratio gain : ℚ) :
    ℚ → ℚ → List ℕ → List ℕ × ℚ × ℚ × ℕ
  | envL, envR, b0 :: b1 :: b2 :: b3 :: b4 :: b5 :: b6 :: b7 :: rest =>
      let left := sample24 (word32 b0 b1 b2 b3)
      let right := sample24 (word32 b4 b5 b6 b7)
      let pl := compress_sample aC rC threshold ratio left envL gain
      let pr := compress_sample aC rC threshold ratio right envR gain
      let out := process_chunk aC rC threshold ratio gain pl.2 pr.2 rest
      (bytes32 (encodeWord pl.1) ++ bytes32 (encodeWord pr.1) ++ out.1,
        out.2.1, out.2.2.1, out.2.2.2 + 1)
  | envL, envR, rest => (rest, envL, envR, 0)

/-! ## Control flow of the real-time loop (lines 172-241)

The `while True:` loop runs inside `try:`; the only way out is a
`KeyboardInterrupt`, which Python may deliver between any two atomic
steps of the try body.  The `except KeyboardInterrupt:` handler prints a
message, and the `finally:` block then runs `audio_in.deinit()` and
`audio_out.deinit()` exactly once before the process exits.  We model an
execution as the trace of events: `n` atomic loop steps (the interrupt
arrives after step `n`, possibly mid-chunk), then the handler and the
`finally` releases. -/

inductive LoopEvent where
  | readChunk
  | potRefresh
  | decodeFrame
  | compressFrame
  | encodeFrame
  | writeChunk
  | stopMessage
  | releaseInput
  | releaseOutput
deriving DecidableEq

/-- The atomic steps of one iteration of the `Running` loop, in source
order (read, periodic pot refresh, per-frame decode/compress/encode,
write), repeated forever. -/
def loop_step (k : ℕ) : LoopEvent :=
  match k % 6 with
  | 0 => .readChunk
  | 1 => .potRefresh
  | 2 => .decodeFrame
  | 3 => .compressFrame
  | 4 => .encodeFrame
  | _ => .writeChunk

/-- Full event trace of a run interrupted after `n` loop steps: the try
body's steps, then the `except` handler's message, then the `finally`
block's two stream releases. -/
def run_until_interrupt (n : ℕ) : List LoopEvent :=
  (List.range n).map loop_step
    ++ [LoopEvent.stopMessage, LoopEvent.releaseInput, LoopEvent.releaseOutput]

/-! ## Helper lemmas -/

/-- Truncation toward zero is the identity on integers. -/
theorem pyInt_intCast (n : ℤ) : pyInt (n : ℚ) = n := by
  rw [pyInt]
  split_ifs
  · exact Int.ceil_intCast n
  · exact Int.floor_intCast n

/-- Closed form of the decode shift: unsigned words below `2^31` map to
`w / 256`, words at or above it to `w / 256 - 2^24`. -/
theorem sample24_eq (w : ℕ) (hw : w < 2 ^ 32) :
    sample24 w
      = if w < 2 ^ 31 then ((w / 256 : ℕ) : ℤ) else ((w / 256 : ℕ) : ℤ) - 2 ^ 24 := by
  rw [sample24, toSigned32]
  have h256 : (0 : ℤ) ≤ 256 := by norm_num
  split_ifs with h1 h2 <;>
    rw [Int.fdiv_eq_ediv _ h256] <;> omega

/-- Decoded 24-bit samples lie in the signed 24-bit range. -/
theorem sample24_range (w : ℕ) (hw : w < 2 ^ 32) :
    -2 ^ 23 ≤ sample24 w ∧ sample24 w ≤ 2 ^ 23 - 1 := by
  rw [sample24_eq w hw]
  split_ifs <;> omega

/-- Re-encoding the decoded 24-bit sample reproduces the container word
with its low padding byte zeroed. -/
theorem encode_sample (w : ℕ) (hw : w < 2 ^ 32) :
    encodeWord (sample24 w) = 256 * (w / 256) := by
  rw [sample24_eq w hw, encodeWord]
  split_ifs with h1 <;> simp only [] <;> split_ifs <;> omega

/-- Dropping `8 + n` elements from a list starting with 8 explicit
elements drops `n` from the tail. -/
theorem drop_cons8 {α : Type} (b0 b1 b2 b3 b4 b5 b6 b7 : α) (rest : List α) (n : ℕ) :
    (b0 :: b1 :: b2 :: b3 :: b4 :: b5 :: b6 :: b7 :: rest).drop (8 + n) = rest.drop n := by
  rw [show 8 + n = n + 8 from by omega]
  rfl

/-- The loop body touches exactly `⌊n / 8⌋` frames, the count the source
computes on line 185. -/
theorem process_chunk_frames (aC rC threshold ratio gain envL envR : ℚ) (chunk : List ℕ) :
    (process_chunk aC rC threshold ratio gain envL envR chunk).2.2.2
      = num_frames chunk.length := by
  induction envL, envR, chunk using process_chunk.induct aC rC threshold ratio gain with
  | case1 envL envR b0 b1 b2 b3 b4 b5 b6 b7 rest left right pl pr ih =>
      simp only [process_chunk, num_frames, List.length_cons] at ih ⊢
      unfold_let pl pr left right at ih
      omega
  | case2 envL envR rest h =>
      have hlen : rest.length < 8 := by
        rcases rest with _ | ⟨a0, _ | ⟨a1, _ | ⟨a2, _ | ⟨a3, _ | ⟨a4, _ | ⟨a5, _ | ⟨a6, _ | ⟨a7, t⟩⟩⟩⟩⟩⟩⟩⟩ <;>
          first
            | exact ((h _ _ _ _ _ _ _ _ _ rfl)).elim
            | simp
      rw [process_chunk.eq_2 _ _ _ _ _ _ _ _ h]
      simp only [num_frames]
      omega

/-- In-place processing preserves the byte count of the chunk. -/
theorem process_chunk_length (aC rC threshold ratio gain envL envR : ℚ) (chunk : List ℕ) :
    (process_chunk aC rC threshold ratio gain envL envR chunk).1.length = chunk.length := by
  induction envL, envR, chunk using process_chunk.induct aC rC threshold ratio gain with
  | case1 envL envR b0 b1 b2 b3 b4 b5 b6 b7 rest left right pl pr ih =>
      simp only [process_chunk, bytes32, List.length_append, List.length_cons,
        List.length_nil] at ih ⊢
      unfold_let pl pr left right at ih
      omega
  | case2 envL envR rest h =>
      rw [process_chunk.eq_2 _ _ _ _ _ _ _ _ h]

/-- The trailing `n mod 8` bytes are untouched by processing. -/
theorem process_chunk_drop (aC rC threshold ratio gain envL envR : ℚ) (chunk : List ℕ) :
    (process_chunk aC rC threshold ratio gain envL envR chunk).1.drop
        (8 * num_frames chunk.length)
      = chunk.drop (8 * num_frames chunk.length) := by
  induction envL, envR, chunk using process_chunk.induct aC rC threshold ratio gain with
  | case1 envL envR b0 b1 b2 b3 b4 b5 b6 b7 rest left right pl pr ih =>
      unfold_let pl pr left right at ih
      have hnf : 8 * num_frames (b0 :: b1 :: b2 :: b3 :: b4 :: b5 :: b6 :: b7 :: rest).length
          = 8 + 8 * num_frames rest.length := by
        simp only [num_frames, List.length_cons]
        omega
      rw [hnf]
      simp only [process_chunk, bytes32, List.cons_append, List.nil_append]
      rw [drop_cons8, drop_cons8]
      exact ih
  | case2 envL envR rest h =>
      rw [process_chunk.eq_2 _ _ _ _ _ _ _ _ h]

/-- Above threshold the gain-reduction factor has the closed form
`1/3 + 1000000 / (3 e)` for the source's threshold 500000 and ratio 3. -/
theorem comp_gain_closed_form (e : ℚ) (he : COMPRESS_THRESHOLD < e) :
    comp_gain COMPRESS_THRESHOLD compress_ratio e = 1 / 3 + 1000000 / (3 * e) := by
  have he0 : (0 : ℚ) < e := lt_trans (by norm_num [COMPRESS_THRESHOLD]) he
  rw [comp_gain, if_pos he]
  rw [COMPRESS_THRESHOLD, compress_ratio]
  field_simp
  ring

/-- One `compress_sample` update keeps the envelope non-negative when
both smoothing coefficients lie in `(0, 1]`. -/
theorem compress_envelope_nonneg (aC rC threshold ratio gain : ℚ) (s : ℤ) (env : ℚ)
    (haC : 0 < aC) (haC1 : aC ≤ 1) (hrC : 0 < rC) (hrC1 : rC ≤ 1) (henv : 0 ≤ env) :
    0 ≤ (compress_sample aC rC threshold ratio s env gain).2 := by
  have habs : (0 : ℚ) ≤ ((|s| : ℤ) : ℚ) := by positivity
  simp only [compress_sample, env_update]
  split_ifs with h
  · nlinarith
  · nlinarith

/-! ## Claim theorems -/

/-- C1, amended: for every 32-bit container word whose decoded 24-bit
sample is not `-2^23`, decoding, applying an identity compression pass
(user gain 1, envelope staying at or below the threshold so compression
never engages), and re-encoding yields the original word with its low
8 padding bits zeroed.  The word decoding to exactly `-2^23` is excluded
because the saturation step clamps symmetrically to `±(2^23 - 1)`. -/
theorem identity_roundtrip (w : ℕ) (aC rC threshold ratio envelope : ℚ)
    (hw : w < 2 ^ 32) (hs : sample24 w ≠ -2 ^ 23)
    (hquiet : env_update aC rC envelope |sample24 w| ≤ threshold) :
    encodeWord ((compress_sample aC rC threshold ratio (sample24 w) envelope 1).1)
      = 256 * (w / 256) := by
  obtain ⟨hlo, hhi⟩ := sample24_range w hw
  have hcg : comp_gain threshold ratio (env_update aC rC envelope |sample24 w|) = 1 := by
    rw [comp_gain, if_neg (not_lt.2 hquiet)]
  simp only [compress_sample, hcg, mul_one, one_mul, pyInt_intCast]
  split_ifs with h1 h2
  · exfalso; omega
  · exfalso; omega
  · exact encode_sample w hw

/-- C1 witness: the round-trip theorem applied to the word 256 (24-bit
sample 1) with identity settings. -/
theorem identity_roundtrip_witness :
    encodeWord ((compress_sample (1/10) (1/100) (2 ^ 23) 3 (sample24 256) 0 1).1)
      = 256 * (256 / 256) :=
  identity_roundtrip 256 (1/10) (1/100) (2 ^ 23) 3 0 (by norm_num) (by decide)
    (by have h1 : sample24 256 = 1 := by decide
        rw [h1]
        norm_num [env_update])

/-- C1 counterexample: at the container word `0x80000000` (24-bit sample
`-2^23`), the identity compression pass saturates to `-(2^23 - 1)` and
the round-trip does not reproduce the zero-padded original word. -/
theorem roundtrip_fails_at_min24 :
    encodeWord ((compress_sample (1/10) (1/100) (2 ^ 23) 3 (sample24 0x80000000) 0 1).1)
      ≠ 256 * (0x80000000 / 256) := by
  have hs : sample24 0x80000000 = -(2 ^ 23) := by
    rw [sample24_eq 0x80000000 (by norm_num)]
    norm_num
  rw [hs]
  have hc : ⌈(-8388608 : ℚ)⌉ = -8388608 := by
    exact_mod_cast Int.ceil_intCast (α := ℚ) (-8388608)
  norm_num [compress_sample, env_update, comp_gain, pyInt, encodeWord, hc]
  decide

/-- C2: with threshold 500000 and ratio 3, the gain-reduction factor is
exactly 1 at or below threshold; above threshold it is in `(0, 1]`,
non-increasing in the envelope, and approaches `1/ratio` in the limit of
large envelope. -/
theorem comp_gain_props :
    (∀ e : ℚ, e ≤ COMPRESS_THRESHOLD → comp_gain COMPRESS_THRESHOLD compress_ratio e = 1) ∧
    (∀ e : ℚ, COMPRESS_THRESHOLD < e →
      0 < comp_gain COMPRESS_THRESHOLD compress_ratio e ∧
      comp_gain COMPRESS_THRESHOLD compress_ratio e ≤ 1) ∧
    (∀ e₁ e₂ : ℚ, COMPRESS_THRESHOLD < e₁ → e₁ ≤ e₂ →
      comp_gain COMPRESS_THRESHOLD compress_ratio e₂
        ≤ comp_gain COMPRESS_THRESHOLD compress_ratio e₁) ∧
    (∀ ε : ℚ, 0 < ε → ∃ E : ℚ, COMPRESS_THRESHOLD < E ∧ ∀ e : ℚ, E ≤ e →
      |comp_gain COMPRESS_THRESHOLD compress_ratio e - 1 / compress_ratio| < ε) := by
  have hθ : (0 : ℚ) < COMPRESS_THRESHOLD := by norm_num [COMPRESS_THRESHOLD]
  refine ⟨?_, ?_, ?_, ?_⟩
  · intro e he
    rw [comp_gain, if_neg (not_lt.2 he)]
  · intro e he
    have he0 : (0 : ℚ) < e := lt_trans hθ he
    rw [comp_gain_closed_form e he]
    constructor
    · positivity
    · have h2 : 1000000 / (3 * e) ≤ 2 / 3 := by
        rw [div_le_div_iff₀ (by positivity) (by norm_num)]
        have : (500000 : ℚ) < e := by rwa [COMPRESS_THRESHOLD] at he
        linarith
      linarith
  · intro e₁ e₂ h1 h12
    have h10 : (0 : ℚ) < e₁ := lt_trans hθ h1
    have h20 : (0 : ℚ) < e₂ := lt_of_lt_of_le h10 h12
    rw [comp_gain_closed_form e₁ h1, comp_gain_closed_form e₂ (lt_of_lt_of_le h1 h12)]
    have : 1000000 / (3 * e₂) ≤ 1000000 / (3 * e₁) := by
      rw [div_le_div_iff₀ (by positivity) (by positivity)]
      nlinarith
    linarith
  · intro ε hε
    refine ⟨max 500001 (1000000 / ε), ?_, ?_⟩
    · rw [COMPRESS_THRESHOLD]
      exact lt_of_lt_of_le (by norm_num) (le_max_left _ _)
    · intro e he
      have h5 : (500001 : ℚ) ≤ e := le_trans (le_max_left _ _) he
      have hgt : COMPRESS_THRESHOLD < e := by rw [COMPRESS_THRESHOLD]; linarith
      have he0 : (0 : ℚ) < e := by linarith
      have hde : 1000000 / ε ≤ e := le_trans (le_max_right _ _) he
      rw [comp_gain_closed_form e hgt, compress_ratio]
      have hpos : (0 : ℚ) < 1000000 / (3 * e) := by positivity
      have habs : |(1 : ℚ) / 3 + 1000000 / (3 * e) - 1 / 3| = 1000000 / (3 * e) := by
        rw [add_sub_cancel_left]
        exact abs_of_pos hpos
      rw [habs, div_lt_iff₀ (by positivity)]
      have : 1000000 ≤ ε * e := by
        rw [div_le_iff₀ hε] at hde
        linarith [hde]
      nlinarith

/-- C2 witness: the factor is 1 at envelope 400000, positive at
envelope 1000000, and non-increasing from 1000000 to 2000000. -/
theorem comp_gain_props_witness :
    comp_gain COMPRESS_THRESHOLD compress_ratio 400000 = 1 ∧
    0 < comp_gain COMPRESS_THRESHOLD compress_ratio 1000000 ∧
    comp_gain COMPRESS_THRESHOLD compress_ratio 2000000
      ≤ comp_gain COMPRESS_THRESHOLD compress_ratio 1000000 :=
  ⟨comp_gain_props.1 400000 (by norm_num [COMPRESS_THRESHOLD]),
   (comp_gain_props.2.1 1000000 (by norm_num [COMPRESS_THRESHOLD])).1,
   comp_gain_props.2.2.1 1000000 2000000 (by norm_num [COMPRESS_THRESHOLD]) (by norm_num)⟩

/-- C3, amended: after every `read_pots` refresh the attack and release
coefficients are equal (both are assigned `1 / samples_per_time`), but
the initial values used before the first refresh are 0.1 and 0.01, which
are not equal — so the coefficients are not equal at every point. -/
theorem coeffs_equal_after_refresh :
    (∀ oldA oldR : ℚ, ∀ graw craw : ℕ,
      (read_pots oldA oldR graw craw).2.1 = (read_pots oldA oldR graw craw).2.2) ∧
    attack_coeff = 0.1 ∧ release_coeff = 0.01 ∧ attack_coeff ≠ release_coeff := by
  refine ⟨?_, rfl, rfl, by norm_num [attack_coeff, release_coeff]⟩
  intro oldA oldR graw craw
  have h : (0 : ℚ) <
      (MIN_TIME_MS + (craw : ℚ) / 65535 * (MAX_TIME_MS - MIN_TIME_MS)) / 1000 * SAMPLE_RATE := by
    have hc : (0 : ℚ) ≤ (craw : ℚ) / 65535 := by positivity
    norm_num [MIN_TIME_MS, MAX_TIME_MS, SAMPLE_RATE]
    linarith
  simp only [read_pots, if_pos h]

/-- C3 witness: the refresh-equality component applied to concrete
previous coefficients and readings. -/
theorem coeffs_equal_witness :
    (read_pots 0 0 5 7).2.1 = (read_pots 0 0 5 7).2.2 :=
  coeffs_equal_after_refresh.1 0 0 5 7

/-- C3 counterexample: the initial attack and release coefficients
(0.1 and 0.01, lines 91-92) differ, so before the first control refresh
the two coefficients used by the envelope update are not equal. -/
theorem attack_ne_release_initially : attack_coeff ≠ release_coeff := by
  norm_num [attack_coeff, release_coeff]

/-- C4, amended: `read_pots` computes the gain as
`MIN_GAIN + (raw / 65535) * (MAX_GAIN - MIN_GAIN)` with no clamping;
for readings in the ADC's actual range 0..65535 the normalized value is
in `[0, 1]`, reading 0 gives exactly `MIN_GAIN`, reading 65535 gives
exactly `MAX_GAIN`, and the gain stays in `[MIN_GAIN, MAX_GAIN]`. -/
theorem gain_linear_in_range :
    (∀ oldA oldR : ℚ, ∀ graw craw : ℕ, graw ≤ 65535 →
      (read_pots oldA oldR graw craw).1
          = MIN_GAIN + ((graw : ℚ) / 65535) * (MAX_GAIN - MIN_GAIN) ∧
      MIN_GAIN ≤ (read_pots oldA oldR graw craw).1 ∧
      (read_pots oldA oldR graw craw).1 ≤ MAX_GAIN) ∧
    (∀ oldA oldR : ℚ, ∀ craw : ℕ, (read_pots oldA oldR 0 craw).1 = MIN_GAIN) ∧
    (∀ oldA oldR : ℚ, ∀ craw : ℕ, (read_pots oldA oldR 65535 craw).1 = MAX_GAIN) := by
  refine ⟨?_, ?_, ?_⟩
  · intro oldA oldR graw craw hle
    have h0 : (0 : ℚ) ≤ (graw : ℚ) / 65535 := by positivity
    have h1 : (graw : ℚ) / 65535 ≤ 1 := by
      rw [div_le_one (by norm_num)]
      exact_mod_cast hle
    refine ⟨rfl, ?_, ?_⟩ <;>
      simp only [read_pots, MIN_GAIN, MAX_GAIN] <;> norm_num <;> nlinarith
  · intro oldA oldR craw
    simp [read_pots]
  · intro oldA oldR craw
    norm_num [read_pots, MIN_GAIN, MAX_GAIN]

/-- C4 witness: the linear-interpolation component at reading 12345. -/
theorem gain_linear_witness :
    (read_pots 0 0 12345 0).1 = MIN_GAIN + ((12345 : ℚ) / 65535) * (MAX_GAIN - MIN_GAIN) :=
  (gain_linear_in_range.1 0 0 12345 0 (by norm_num)).1

/-- C4 counterexample: a raw reading of 131070 (above the 16-bit range)
is not clamped and produces gain 15.5, exceeding `MAX_GAIN = 8`, so the
claim's universal clamping over all non-negative readings fails. -/
theorem gain_unclamped_above_range : MAX_GAIN < (read_pots 0 0 131070 0).1 := by
  norm_num [read_pots, MIN_GAIN, MAX_GAIN, MIN_TIME_MS, MAX_TIME_MS, SAMPLE_RATE]

/-- C5: for every input sample, envelope state, and user gain `≥ 0`, the
output of `compress_sample` has magnitude at most `2^23 - 1` thanks to
the saturation step. -/
theorem compress_output_saturated (aC rC threshold ratio : ℚ) (sample : ℤ)
    (envelope gain : ℚ) (hg : 0 ≤ gain) :
    |(compress_sample aC rC threshold ratio sample envelope gain).1| ≤ 2 ^ 23 - 1 := by
  simp only [compress_sample]
  split_ifs with h1 h2
  · norm_num
  · norm_num
  · rw [abs_le]
    constructor <;> omega

/-- C5 witness: saturation bound at a concrete sample, envelope and gain. -/
theorem compress_saturated_witness :
    |(compress_sample 1 1 500000 3 5 0 2).1| ≤ 2 ^ 23 - 1 :=
  compress_output_saturated 1 1 500000 3 5 0 2 (by norm_num)

/-- C6: with sample 1000000, gain 1, threshold 500000, ratio 3 and prior
envelope 1000000, the envelope stays at 1000000, `overRatio = 2`,
`compressedRatio = 4/3`, `compressionGain = 2/3` (≈ 0.667), and the
output is 666666 (≈ 667000, within range, no saturation), for any
attack/release coefficients. -/
theorem compress_scenario (aC rC : ℚ) :
    (1000000 : ℚ) / COMPRESS_THRESHOLD = 2 ∧
    1 + ((1000000 : ℚ) / COMPRESS_THRESHOLD - 1) / compress_ratio = 4 / 3 ∧
    comp_gain COMPRESS_THRESHOLD compress_ratio 1000000 = 2 / 3 ∧
    compress_sample aC rC COMPRESS_THRESHOLD compress_ratio 1000000 1000000 1
      = (666666, 1000000) := by
  refine ⟨by norm_num [COMPRESS_THRESHOLD], by norm_num [COMPRESS_THRESHOLD, compress_ratio],
    by norm_num [comp_gain, COMPRESS_THRESHOLD, compress_ratio], ?_⟩
  simp only [compress_sample, env_update, comp_gain, pyInt, COMPRESS_THRESHOLD, compress_ratio]
  norm_num

/-- C6 witness: the scenario at the initial coefficient values. -/
theorem compress_scenario_witness :
    compress_sample (1/10) (1/100) COMPRESS_THRESHOLD compress_ratio 1000000 1000000 1
      = (666666, 1000000) :=
  (compress_scenario (1/10) (1/100)).2.2.2

/-- C7: a chunk of `n > 0` bytes is processed as exactly `⌊n / 8⌋`
stereo frames; every byte index the frame loop touches is within the
chunk (no exception), the trailing `n mod 8` bytes are not processed as
audio, and in particular 8191 bytes give 1023 frames with 7 bytes left. -/
theorem chunk_framing (aC rC threshold ratio gain envL envR : ℚ) (chunk : List ℕ)
    (hpos : 0 < chunk.length) :
    (process_chunk aC rC threshold ratio gain envL envR chunk).2.2.2
        = num_frames chunk.length ∧
    (∀ i : ℕ, i < num_frames chunk.length → 8 * i + 7 < chunk.length) ∧
    (process_chunk aC rC threshold ratio gain envL envR chunk).1.drop
        (8 * num_frames chunk.length)
      = chunk.drop (8 * num_frames chunk.length) ∧
    num_frames 8191 = 1023 ∧ 8191 % 8 = 7 := by
  refine ⟨process_chunk_frames aC rC threshold ratio gain envL envR chunk, ?_,
    process_chunk_drop aC rC threshold ratio gain envL envR chunk,
    by norm_num [num_frames], by norm_num⟩
  intro i hi
  simp only [num_frames] at hi
  omega

/-- C7 witness: a 9-byte chunk is processed as exactly one frame. -/
theorem chunk_framing_witness :
    (process_chunk 1 1 500000 3 1 0 0 (List.replicate 9 0)).2.2.2
      = num_frames (List.replicate 9 0).length :=
  (chunk_framing 1 1 500000 3 1 0 0 (List.replicate 9 0) (by simp)).1

/-- C8: the per-channel envelopes start at 0 and remain non-negative
after every `compress_sample` update for every sequence of samples,
whenever both coefficients are in `(0, 1]`; the initial coefficients and
every coefficient `read_pots` derives from a 16-bit reading are in that
interval. -/
theorem envelope_nonneg_invariant :
    envelope_left = 0 ∧ envelope_right = 0 ∧
    (∀ aC rC threshold ratio gain : ℚ, 0 < aC → aC ≤ 1 → 0 < rC → rC ≤ 1 →
      ∀ samples : List ℤ,
        0 ≤ samples.foldl
          (fun env s => (compress_sample aC rC threshold ratio s env gain).2) 0) ∧
    (0 < attack_coeff ∧ attack_coeff ≤ 1 ∧ 0 < release_coeff ∧ release_coeff ≤ 1) ∧
    (∀ oldA oldR : ℚ, ∀ graw craw : ℕ, craw ≤ 65535 →
      (0 < (read_pots oldA oldR graw craw).2.1 ∧ (read_pots oldA oldR graw craw).2.1 ≤ 1) ∧
      (0 < (read_pots oldA oldR graw craw).2.2 ∧ (read_pots oldA oldR graw craw).2.2 ≤ 1)) := by
  refine ⟨by norm_num [envelope_left], by norm_num [envelope_right], ?_, ?_, ?_⟩
  · intro aC rC threshold ratio gain haC haC1 hrC hrC1 samples
    have key : ∀ (l : List ℤ) (env : ℚ), 0 ≤ env →
        0 ≤ l.foldl (fun env s => (compress_sample aC rC threshold ratio s env gain).2) env := by
      intro l
      induction l with
      | nil => intro env henv; exact henv
      | cons s t iht =>
          intro env henv
          exact iht _ (compress_envelope_nonneg aC rC threshold ratio gain s env
            haC haC1 hrC hrC1 henv)
    exact key samples 0 le_rfl
  · refine ⟨by norm_num [attack_coeff], by norm_num [attack_coeff],
      by norm_num [release_coeff], by norm_num [release_coeff]⟩
  · intro oldA oldR graw craw hcraw
    have hc0 : (0 : ℚ) ≤ (craw : ℚ) / 65535 := by positivity
    have hspt : (MIN_TIME_MS + (craw : ℚ) / 65535 * (MAX_TIME_MS - MIN_TIME_MS)) / 1000
        * SAMPLE_RATE = 80 + 3120 * ((craw : ℚ) / 65535) := by
      rw [MIN_TIME_MS, MAX_TIME_MS, SAMPLE_RATE]
      ring
    have hpos : (0 : ℚ) <
        (MIN_TIME_MS + (craw : ℚ) / 65535 * (MAX_TIME_MS - MIN_TIME_MS)) / 1000
          * SAMPLE_RATE := by
      rw [hspt]; linarith
    have hone : 1 ≤ (MIN_TIME_MS + (craw : ℚ) / 65535 * (MAX_TIME_MS - MIN_TIME_MS)) / 1000
        * SAMPLE_RATE := by
      rw [hspt]; linarith
    simp only [read_pots, if_pos hpos]
    have h1 : 0 < 1 / ((MIN_TIME_MS + (craw : ℚ) / 65535 * (MAX_TIME_MS - MIN_TIME_MS)) / 1000
        * SAMPLE_RATE) := by positivity
    have h2 : 1 / ((MIN_TIME_MS + (craw : ℚ) / 65535 * (MAX_TIME_MS - MIN_TIME_MS)) / 1000
        * SAMPLE_RATE) ≤ 1 := by
      rw [div_le_one hpos]
      exact hone
    exact ⟨⟨h1, h2⟩, ⟨h1, h2⟩⟩

/-- C8 witness: the fold component at concrete coefficients and samples. -/
theorem envelope_nonneg_witness :
    0 ≤ ([5, -3, 100] : List ℤ).foldl
        (fun env s => (compress_sample (1/10) (1/100) 500000 3 s env 1).2) 0 :=
  envelope_nonneg_invariant.2.2.1 (1/10) (1/100) 500000 3 1
    (by norm_num) (by norm_num) (by norm_num) (by norm_num) [5, -3, 100]

/-- C9: for an interruption observed after any number of atomic loop
steps — including mid-chunk — the resulting execution trace releases the
input stream exactly once and the output stream exactly once before the
process exits (the `finally` block of lines 238-241). -/
theorem streams_released_once (n : ℕ) :
    (run_until_interrupt n).count LoopEvent.releaseInput = 1 ∧
    (run_until_interrupt n).count LoopEvent.releaseOutput = 1 := by
  have hstep : ∀ k, loop_step k ≠ LoopEvent.releaseInput
      ∧ loop_step k ≠ LoopEvent.releaseOutput := by
    intro k
    unfold loop_step
    split <;> simp
  have hzero : ∀ e : LoopEvent, (∀ k, loop_step k ≠ e) →
      ((List.range n).map loop_step).count e = 0 := by
    intro e he
    rw [List.count_eq_zero]
    intro hmem
    obtain ⟨k, _, hk⟩ := List.mem_map.1 hmem
    exact he k hk
  constructor <;>
    rw [run_until_interrupt, List.count_append] <;>
    [rw [hzero _ fun k => (hstep k).1]; rw [hzero _ fun k => (hstep k).2]] <;>
    decide

/-- C9 witness: the release guarantee for an interrupt after 13 steps,
which lands mid-chunk (between per-frame operations). -/
theorem streams_released_witness :
    (run_until_interrupt 13).count LoopEvent.releaseInput = 1 ∧
    (run_until_interrupt 13).count LoopEvent.releaseOutput = 1 :=
  streams_released_once 13

/-- C10: processing a chunk of `n` bytes yields exactly `n` output bytes
(matching the `audio_buffer[:num_read]` write), and the trailing
`n mod 8` remainder bytes are emitted byte-for-byte unchanged from the
input rather than dropped. -/
theorem remainder_bytes_passthrough (aC rC threshold ratio gain envL envR : ℚ)
    (chunk : List ℕ) :
    (process_chunk aC rC threshold ratio gain envL envR chunk).1.length = chunk.length ∧
    (process_chunk aC rC threshold ratio gain envL envR chunk).1.drop
        (8 * num_frames chunk.length)
      = chunk.drop (8 * num_frames chunk.length) :=
  ⟨process_chunk_length aC rC threshold ratio gain envL envR chunk,
    process_chunk_drop aC rC threshold ratio gain envL envR chunk⟩

/-- C10 witness: a 3-byte chunk passes through with its length intact. -/
theorem remainder_passthrough_witness :
    (process_chunk 1 1 500000 3 1 0 0 [1, 2, 3]).1.length = ([1, 2, 3] : List ℕ).length :=
  (remainder_bytes_passthrough 1 1 500000 3 1 0 0 [1, 2, 3]).1

end HearingAid
